import Mathlib

/-!
Verification development for the SSFM backtest core.

Shallow embedding of the event-driven backtest engine:
  - `src/execution/position_manager.py` (Direction, Action, PositionManager)
  - `src/execution/execution_engine.py` (compute_fill_price, round_to_tick)
  - `src/backtest/ledger.py` (Trade, build_trade, Ledger)
  - `src/backtest/engine.py` (PendingOrder, BacktestState, run_backtest,
    _execute_pending, _force_close_at_end)

Modelling conventions:
  - Python floats are modelled as exact rationals (ℚ); Python built-in
    `round` is round-half-to-even (banker's rounding), modelled by
    `pyRound`.
  - Timestamps (pandas Timestamps, used only for ordering and audit) are
    modelled as ℕ.
  - Fallible code (assert failures, raised ValueError, out-of-range
    indexing) is modelled with `Option`: `none` is an aborted run.
  - Module-level configuration read from `config.settings` is threaded as
    an explicit `Settings` record.
-/

namespace SSFM

/-- Direction of a position or trade (`position_manager.py`, IntEnum:
FLAT = 0, LONG = 1, SHORT = -1). -/
inductive Direction where
  | FLAT
  | LONG
  | SHORT
deriving DecidableEq

/-- Numeric value of a `Direction`, as in the Python IntEnum. -/
def Direction.value : Direction → Int
  | .FLAT => 0
  | .LONG => 1
  | .SHORT => -1

/-- Python `Direction(v)`: IntEnum lookup; raises `ValueError` (here:
`none`) when `v` is not one of 0, 1, -1. -/
def Direction.ofValue (v : Int) : Option Direction :=
  if v = 0 then some .FLAT
  else if v = 1 then some .LONG
  else if v = -1 then some .SHORT
  else none

/-- `config/constants.py`: `TICK_SIZE = 0.00005`. -/
def TICK_SIZE : ℚ := 5 / 100000

/-- `config/constants.py`: `TICK_VALUE = 6.25`. -/
def TICK_VALUE : ℚ := 625 / 100

/-- Static configuration read by the engine from `config.settings`.
`SLIPPAGE_TICKS` and `COMMISSION_PER_SIDE` are defined in
`src/config/settings.py`.  `ROLL_CLOSE_SLIPPAGE_TICKS` (read by
`execution_engine.compute_fill_price`) and `ROLL_FREEZE_BARS_POST` (read
by `backtest.engine.run_backtest`) are referenced by the source but their
definitions are absent from `src/config/settings.py`; they are modelled
from the spec: "Configuration: tick_size, tick_value, slippage_ticks,
roll_close_slippage_ticks, commission_per_side, roll_freeze_bars — all
supplied as static configuration, not hardcoded". -/
structure Settings where
  SLIPPAGE_TICKS : Int
  ROLL_CLOSE_SLIPPAGE_TICKS : Int
  COMMISSION_PER_SIDE : ℚ
  ROLL_FREEZE_BARS_POST : Nat
deriving DecidableEq

/-- Python built-in `round(q)` on an exact rational value: round to the
nearest integer, ties to the even integer (banker's rounding). -/
def pyRound (q : ℚ) : Int :=
  if q - ⌊q⌋ < 1/2 then ⌊q⌋
  else if 1/2 < q - ⌊q⌋ then ⌊q⌋ + 1
  else if ⌊q⌋ % 2 = 0 then ⌊q⌋ else ⌊q⌋ + 1

/-- `execution_engine.round_to_tick`: Python
`round(round(price / tick) * tick, 10)` with `tick = TICK_SIZE`;
`round(x, 10)` rounds to ten decimal places, modelled as
`pyRound (x * 10^10) / 10^10`. -/
def round_to_tick (price : ℚ) : ℚ :=
  (pyRound ((pyRound (price / TICK_SIZE) : ℚ) * TICK_SIZE * 10 ^ 10) : ℚ) / 10 ^ 10

/-- `execution_engine.compute_fill_price`: adverse slippage applied to the
bar open; raises `ValueError` (`none`) for `Direction.FLAT`. -/
def compute_fill_price (S : Settings) (direction : Direction) (bar_open : ℚ)
    (is_roll_close : Bool) : Option ℚ :=
  if direction = .FLAT then none
  else
    let ticks := if is_roll_close then S.ROLL_CLOSE_SLIPPAGE_TICKS else S.SLIPPAGE_TICKS
    let slippage_amount : ℚ := (ticks : ℚ) * TICK_SIZE
    if direction = .LONG then some (bar_open + slippage_amount)
    else some (bar_open - slippage_amount)

/-- `position_manager.Action`: what the execution engine should do. -/
structure Action where
  close_existing : Bool := false
  open_new : Bool := false
  new_direction : Direction := .FLAT
deriving DecidableEq

/-- `position_manager.PositionManager`: current direction and the bar
index at which the position was opened (-1 if flat). -/
structure PositionManager where
  current_direction : Direction := .FLAT
  entry_bar_index : Int := -1
deriving DecidableEq

/-- `PositionManager.is_flat`. -/
def PositionManager.is_flat (pm : PositionManager) : Bool :=
  pm.current_direction = .FLAT

/-- `PositionManager.evaluate_signal`; `Direction(signal)` raises
(`none`) on a signal outside {-1, 0, 1}.  `bar_index` is used only for
logging in the source. -/
def PositionManager.evaluate_signal (pm : PositionManager) (signal : Int)
    (_bar_index : Nat) : Option Action :=
  if signal = 0 then some {}
  else
    match Direction.ofValue signal with
    | none => none
    | some desired =>
      if pm.current_direction = desired then some {}
      else if pm.is_flat then
        some { close_existing := false, open_new := true, new_direction := desired }
      else
        some { close_existing := true, open_new := true, new_direction := desired }

/-- `PositionManager.on_open`. -/
def PositionManager.on_open (_pm : PositionManager) (direction : Direction)
    (bar_index : Int) : PositionManager :=
  { current_direction := direction, entry_bar_index := bar_index }

/-- `PositionManager.on_close`. -/
def PositionManager.on_close (_pm : PositionManager) : PositionManager :=
  { current_direction := .FLAT, entry_bar_index := -1 }

/-- `ledger.Trade`: immutable record of a completed round trip.  The
`r_multiple` field (a float NaN placeholder, unused) is omitted. -/
structure Trade where
  trade_id : Nat
  direction : Direction
  entry_bar : Nat
  exit_bar : Nat
  entry_price : ℚ
  exit_price : ℚ
  gross_pnl : ℚ
  commission : ℚ
  net_pnl : ℚ
  is_winner : Bool
deriving DecidableEq

/-- `ledger.build_trade`: construct a Trade from raw fill data,
computing PnL. -/
def build_trade (S : Settings) (trade_id : Nat) (direction : Direction)
    (entry_bar exit_bar : Nat) (entry_price exit_price : ℚ) : Trade :=
  let price_to_usd := TICK_VALUE / TICK_SIZE
  let gross_pnl := (direction.value : ℚ) * (exit_price - entry_price) * price_to_usd
  let commission := S.COMMISSION_PER_SIDE * 2
  let net_pnl := gross_pnl - commission
  { trade_id := trade_id
    direction := direction
    entry_bar := entry_bar
    exit_bar := exit_bar
    entry_price := entry_price
    exit_price := exit_price
    gross_pnl := gross_pnl
    commission := commission
    net_pnl := net_pnl
    is_winner := decide (net_pnl > 0) }

/-- `ledger.Ledger`: ordered trades plus the auto-incremented counter
(`_next_id`, starting at 1). -/
structure Ledger where
  trades : List Trade := []
  next_id : Nat := 1
deriving DecidableEq

/-- `Ledger.record`: build and append a new Trade; returns the updated
ledger and the trade. -/
def Ledger.record (l : Ledger) (S : Settings) (direction : Direction)
    (entry_bar exit_bar : Nat) (entry_price exit_price : ℚ) : Ledger × Trade :=
  let trade := build_trade S l.next_id direction entry_bar exit_bar entry_price exit_price
  ({ trades := l.trades ++ [trade], next_id := l.next_id + 1 }, trade)

/-- `engine.PendingOrder`: order queued for execution at the next bar
open.  `exit_reason` is "signal" or "roll". -/
structure PendingOrder where
  close_direction : Option Direction := none
  open_direction : Option Direction := none
  signal_bar : Option Nat := none
  exit_reason : String := "signal"
deriving DecidableEq

/-- `engine.BacktestState`: mutable state carried through the bar loop. -/
structure BacktestState where
  position : PositionManager := {}
  ledger : Ledger := {}
  pending : Option PendingOrder := none
  entry_price : Option ℚ := none
  entry_bar : Option Nat := none
  roll_freeze_remaining : Nat := 0
deriving DecidableEq

/-- One M5 bar as consumed by `run_backtest`: timestamp (`ts_event`),
open, high, low, close and the `contains_roll` flag.  The engine reads
only `ts`, `open_price` (column "open") and `contains_roll`. -/
structure Bar where
  ts : Nat
  open_price : ℚ
  high : ℚ
  low : ℚ
  close : ℚ
  contains_roll : Bool
deriving DecidableEq

/-- Close leg of `engine._execute_pending` (the
`if pending.close_direction is not None` block): negate the closed
direction, compute and round the exit fill, record the trade, clear the
position and the entry cache.  `none` models the asserts on
`entry_price` / `entry_bar` and the `ValueError` from the fill
computation. -/
def close_leg (S : Settings) (p : PendingOrder) (st : BacktestState)
    (bar_ts : Nat) (bar_open : ℚ) : Option BacktestState :=
  match p.close_direction with
  | none => some st
  | some cd =>
    match Direction.ofValue (-(cd.value)) with
    | none => none
    | some closing_order_dir =>
      match compute_fill_price S closing_order_dir bar_open (p.exit_reason == "roll") with
      | none => none
      | some fp =>
        let exit_price := round_to_tick fp
        match st.entry_price with
        | none => none
        | some ep =>
          match st.entry_bar with
          | none => none
          | some eb =>
            let res := st.ledger.record S cd eb bar_ts ep exit_price
            some { st with
              ledger := res.1
              position := st.position.on_close
              entry_price := none
              entry_bar := none }

/-- Open leg of `engine._execute_pending` (the
`if pending.open_direction is not None` block).  Note the source passes
`bar_index=-1` to `on_open`. -/
def open_leg (S : Settings) (p : PendingOrder) (st : BacktestState)
    (bar_ts : Nat) (bar_open : ℚ) : Option BacktestState :=
  match p.open_direction with
  | none => some st
  | some od =>
    match compute_fill_price S od bar_open false with
    | none => none
    | some fp =>
      some { st with
        position := st.position.on_open od (-1)
        entry_price := some (round_to_tick fp)
        entry_bar := some bar_ts }

/-- `engine._execute_pending`: close leg, then open leg, then clear the
pending order.  `none` when `state.pending` is `None` (the source
asserts it is not). -/
def execute_pending (S : Settings) (st : BacktestState) (bar_ts : Nat)
    (bar_open : ℚ) : Option BacktestState :=
  match st.pending with
  | none => none
  | some p =>
    match close_leg S p st bar_ts bar_open with
    | none => none
    | some st1 =>
      match open_leg S p st1 bar_ts bar_open with
      | none => none
      | some st2 => some { st2 with pending := none }

/-- STEP 2 of `engine.run_backtest` (roll bar): if a position is open,
queue a close-only PendingOrder with exit reason "roll"; activate the
freeze window regardless. -/
def roll_phase (S : Settings) (st : BacktestState) (bar_ts : Nat) : BacktestState :=
  if st.position.is_flat then
    { st with roll_freeze_remaining := S.ROLL_FREEZE_BARS_POST }
  else
    { st with
      pending := some
        { close_direction := some st.position.current_direction
          open_direction := none
          signal_bar := some bar_ts
          exit_reason := "roll" }
      roll_freeze_remaining := S.ROLL_FREEZE_BARS_POST }

/-- STEP 4 of `engine.run_backtest` (normal signal evaluation):
evaluate `signals.iloc[i]` against the position state machine; queue a
PendingOrder on any action, else clear any stale pending order. -/
def signal_phase (st : BacktestState) (i : Nat) (bar_ts : Nat)
    (signals : List Int) : Option BacktestState :=
  match signals[i]? with
  | none => none
  | some signal_value =>
    match st.position.evaluate_signal signal_value i with
    | none => none
    | some action =>
      let signal_order : PendingOrder :=
        { close_direction :=
            if action.close_existing then some st.position.current_direction else none
          open_direction :=
            if action.open_new then some action.new_direction else none
          signal_bar := some bar_ts
          exit_reason := "signal" }
      if action.close_existing || action.open_new then
        some { st with pending := some signal_order }
      else
        some { st with pending := none }

/-- STEPS 2-4 of the loop body: roll handling, else freeze decrement,
else signal evaluation (run on the state left by STEP 1). -/
def step_tail (S : Settings) (st1 : BacktestState) (i : Nat) (bar : Bar)
    (signals : List Int) : Option BacktestState :=
  if bar.contains_roll then some (roll_phase S st1 bar.ts)
  else if st1.roll_freeze_remaining > 0 then
    some { st1 with roll_freeze_remaining := st1.roll_freeze_remaining - 1 }
  else
    signal_phase st1 i bar.ts signals

/-- One iteration of the `for i in range(n_bars)` loop in
`engine.run_backtest`: STEP 1 executes any pending order from the
previous bar, unconditionally and before any roll/freeze/signal logic;
then STEPS 2-4. -/
def step (S : Settings) (st : BacktestState) (i : Nat) (bar : Bar)
    (signals : List Int) : Option BacktestState :=
  match st.pending with
  | none => step_tail S st i bar signals
  | some _ =>
    match execute_pending S st bar.ts bar.open_price with
    | none => none
    | some st1 => step_tail S st1 i bar signals

/-- The bar loop of `engine.run_backtest`, carrying the running index
`i` (the position used for `signals.iloc[i]`). -/
def run_loop (S : Settings) (st : BacktestState) (i : Nat) (bars : List Bar)
    (signals : List Int) : Option BacktestState :=
  match bars with
  | [] => some st
  | bar :: rest =>
    match step S st i bar signals with
    | none => none
    | some st' => run_loop S st' (i + 1) rest signals

/-- `engine._force_close_at_end`: close any open position at the final
bar's open price (standard slippage), recording the trade.  Unlike
`_execute_pending`, the source does not reset `entry_price` /
`entry_bar` here (only `position.on_close()` is called). -/
def force_close_at_end (S : Settings) (st : BacktestState) (bars : List Bar) :
    Option BacktestState :=
  if st.position.is_flat then some st
  else
    match bars.getLast? with
    | none => none
    | some last_bar =>
      match Direction.ofValue (-(st.position.current_direction.value)) with
      | none => none
      | some closing_dir =>
        match compute_fill_price S closing_dir last_bar.open_price false with
        | none => none
        | some fp =>
          let exit_price := round_to_tick fp
          match st.entry_price with
          | none => none
          | some ep =>
            match st.entry_bar with
            | none => none
            | some eb =>
              let res := st.ledger.record S st.position.current_direction eb
                last_bar.ts ep exit_price
              some { st with
                ledger := res.1
                position := st.position.on_close }

/-- `engine.run_backtest`: run the loop over all bars from the initial
state, then force-close any open position at the final bar. -/
def run_backtest (S : Settings) (bars : List Bar) (signals : List Int) :
    Option BacktestState :=
  match run_loop S {} 0 bars signals with
  | none => none
  | some st => force_close_at_end S st bars

/-- State of the run after processing the first `k` bars (no end-of-data
force close): the loop restricted to the prefix `bars.take k`. -/
def run_first (S : Settings) (bars : List Bar) (signals : List Int) (k : Nat) :
    Option BacktestState :=
  run_loop S {} 0 (bars.take k) signals

/-- Opens recorded in ledger-plus-current-state: each completed trade
contributes one open; an open position contributes one more. -/
def opens_in (st : BacktestState) : Nat :=
  st.ledger.trades.length + (if st.position.current_direction = .FLAT then 0 else 1)

/-- Closes recorded in ledger-plus-current-state: each completed trade
contributes one close. -/
def closes_in (st : BacktestState) : Nat :=
  st.ledger.trades.length

/-- PnL correctness of a single trade record: the net PnL formula and
the win flag. -/
def TradeOK (S : Settings) (t : Trade) : Prop :=
  t.net_pnl = (t.direction.value : ℚ) * (t.exit_price - t.entry_price) *
      (TICK_VALUE / TICK_SIZE) - 2 * S.COMMISSION_PER_SIDE ∧
  (t.is_winner = true ↔ 0 < t.net_pnl)

lemma build_trade_ok (S : Settings) (id : Nat) (d : Direction) (eb xb : Nat)
    (ep xp : ℚ) : TradeOK S (build_trade S id d eb xb ep xp) := by
  refine ⟨?_, ?_⟩
  · simp only [build_trade]
    ring
  · simp only [build_trade, gt_iff_lt, decide_eq_true_eq]

/-- Well-formedness of a queued pending order relative to the position:
a close leg names the currently held (non-flat) direction, an open leg
is never flat. -/
def pendingOK (st : BacktestState) : Prop :=
  ∀ p, st.pending = some p →
    (∀ cd, p.close_direction = some cd →
        cd = st.position.current_direction ∧ cd ≠ .FLAT) ∧
    (∀ od, p.open_direction = some od → od ≠ .FLAT)

/-- The BacktestState invariant: the entry cache is populated exactly
when a position is open, and any pending order is well formed. -/
def Inv (st : BacktestState) : Prop :=
  (st.entry_price.isSome ↔ st.position.current_direction ≠ .FLAT) ∧
  (st.entry_bar.isSome ↔ st.position.current_direction ≠ .FLAT) ∧
  pendingOK st

lemma Inv_init : Inv {} := by
  refine ⟨by simp, by simp, ?_⟩
  intro p hp
  simp at hp

lemma ofValue_eq_flat {v : Int} (h : Direction.ofValue v = some .FLAT) : v = 0 := by
  unfold Direction.ofValue at h
  split_ifs at h <;> simp_all

lemma ofValue_long : Direction.ofValue 1 = some .LONG := by
  unfold Direction.ofValue
  norm_num

lemma ofValue_short : Direction.ofValue (-1) = some .SHORT := by
  unfold Direction.ofValue
  norm_num

lemma is_flat_iff (pm : PositionManager) :
    pm.is_flat = true ↔ pm.current_direction = .FLAT := by
  simp [PositionManager.is_flat]

lemma evaluate_signal_spec {pm : PositionManager} {s : Int} {i : Nat} {a : Action}
    (h : pm.evaluate_signal s i = some a) :
    (a.close_existing = true → pm.current_direction ≠ .FLAT) ∧
    (a.open_new = true → a.new_direction ≠ .FLAT) := by
  unfold PositionManager.evaluate_signal at h
  by_cases h0 : s = 0
  · rw [if_pos h0] at h
    cases Option.some.inj h
    simp
  · rw [if_neg h0] at h
    cases hof : Direction.ofValue s with
    | none => rw [hof] at h; cases h
    | some desired =>
      rw [hof] at h
      simp only [] at h
      have hdes : desired ≠ .FLAT := by
        intro hd
        exact h0 (ofValue_eq_flat (hd ▸ hof))
      by_cases heq : pm.current_direction = desired
      · rw [if_pos heq] at h
        cases Option.some.inj h
        simp
      · rw [if_neg heq] at h
        by_cases hfl : pm.is_flat = true
        · rw [if_pos hfl] at h
          cases Option.some.inj h
          exact ⟨by simp, fun _ => hdes⟩
        · rw [if_neg hfl] at h
          cases Option.some.inj h
          refine ⟨fun _ => ?_, fun _ => hdes⟩
          intro hFl
          exact hfl ((is_flat_iff pm).mpr hFl)

lemma evaluate_signal_total (pm : PositionManager) (s : Int) (i : Nat)
    (hs : s = -1 ∨ s = 0 ∨ s = 1) :
    ∃ a, pm.evaluate_signal s i = some a := by
  unfold PositionManager.evaluate_signal
  rcases hs with h | h | h <;> subst h
  · rw [if_neg (by norm_num), ofValue_short]
    simp only []
    split_ifs <;> exact ⟨_, rfl⟩
  · exact ⟨_, rfl⟩
  · rw [if_neg (by norm_num), ofValue_long]
    simp only []
    split_ifs <;> exact ⟨_, rfl⟩

lemma compute_fill_price_flat (S : Settings) (o : ℚ) (r : Bool) :
    compute_fill_price S .FLAT o r = none := by
  simp [compute_fill_price]

lemma compute_fill_price_ne_flat (S : Settings) {d : Direction} (o : ℚ) (r : Bool)
    (hd : d ≠ .FLAT) :
    compute_fill_price S d o r =
      some (if d = .LONG then
              o + ((if r then S.ROLL_CLOSE_SLIPPAGE_TICKS else S.SLIPPAGE_TICKS : Int) : ℚ) * TICK_SIZE
            else
              o - ((if r then S.ROLL_CLOSE_SLIPPAGE_TICKS else S.SLIPPAGE_TICKS : Int) : ℚ) * TICK_SIZE) := by
  unfold compute_fill_price
  rw [if_neg hd]
  split_ifs with h <;> simp [h]

lemma compute_fill_price_some_ne_flat {S : Settings} {d : Direction} {o fp : ℚ}
    {r : Bool} (h : compute_fill_price S d o r = some fp) : d ≠ .FLAT := by
  intro hd
  subst hd
  rw [compute_fill_price_flat] at h
  cases h

lemma record_trades (l : Ledger) (S : Settings) (d : Direction) (eb xb : Nat)
    (ep xp : ℚ) :
    (l.record S d eb xb ep xp).1.trades =
      l.trades ++ [build_trade S l.next_id d eb xb ep xp] := rfl

lemma close_leg_spec {S : Settings} {p : PendingOrder} {st st1 : BacktestState}
    {ts : Nat} {o : ℚ} (h : close_leg S p st ts o = some st1) :
    (p.close_direction = none ∧ st1 = st) ∨
    (∃ cd ep eb xp, p.close_direction = some cd ∧ st.entry_price = some ep ∧
      st.entry_bar = some eb ∧
      st1 = { st with
        ledger := (st.ledger.record S cd eb ts ep xp).1
        position := st.position.on_close
        entry_price := none
        entry_bar := none }) := by
  unfold close_leg at h
  cases hcd : p.close_direction with
  | none =>
    rw [hcd] at h
    exact Or.inl ⟨rfl, (Option.some.inj h).symm⟩
  | some cd =>
    rw [hcd] at h
    simp only [] at h
    cases hof : Direction.ofValue (-(cd.value)) with
    | none => rw [hof] at h; cases h
    | some codir =>
      rw [hof] at h
      simp only [] at h
      cases hfp : compute_fill_price S codir o (p.exit_reason == "roll") with
      | none => rw [hfp] at h; cases h
      | some fp =>
        rw [hfp] at h
        simp only [] at h
        cases hep : st.entry_price with
        | none => rw [hep] at h; cases h
        | some ep =>
          rw [hep] at h
          simp only [] at h
          cases heb : st.entry_bar with
          | none => rw [heb] at h; cases h
          | some eb =>
            rw [heb] at h
            simp only [] at h
            exact Or.inr ⟨cd, ep, eb, round_to_tick fp, rfl, rfl, rfl,
              (Option.some.inj h).symm⟩

lemma open_leg_spec {S : Settings} {p : PendingOrder} {st st2 : BacktestState}
    {ts : Nat} {o : ℚ} (h : open_leg S p st ts o = some st2) :
    (p.open_direction = none ∧ st2 = st) ∨
    (∃ od pr, od ≠ .FLAT ∧
      st2 = { st with
        position := st.position.on_open od (-1)
        entry_price := some pr
        entry_bar := some ts }) := by
  unfold open_leg at h
  cases hod : p.open_direction with
  | none =>
    rw [hod] at h
    exact Or.inl ⟨rfl, (Option.some.inj h).symm⟩
  | some od =>
    rw [hod] at h
    simp only [] at h
    cases hfp : compute_fill_price S od o false with
    | none => rw [hfp] at h; cases h
    | some fp =>
      rw [hfp] at h
      simp only [] at h
      exact Or.inr ⟨od, round_to_tick fp, compute_fill_price_some_ne_flat hfp,
        (Option.some.inj h).symm⟩

lemma execute_pending_spec {S : Settings} {st st' : BacktestState} {ts : Nat}
    {o : ℚ} (h : execute_pending S st ts o = some st') :
    ∃ p st1 st2, st.pending = some p ∧ close_leg S p st ts o = some st1 ∧
      open_leg S p st1 ts o = some st2 ∧ st' = { st2 with pending := none } := by
  unfold execute_pending at h
  cases hp : st.pending with
  | none => rw [hp] at h; cases h
  | some p =>
    rw [hp] at h
    simp only [] at h
    cases hcl : close_leg S p st ts o with
    | none => rw [hcl] at h; cases h
    | some st1 =>
      rw [hcl] at h
      simp only [] at h
      cases hop : open_leg S p st1 ts o with
      | none => rw [hop] at h; cases h
      | some st2 =>
        rw [hop] at h
        simp only [] at h
        exact ⟨p, st1, st2, rfl, hcl, hop, (Option.some.inj h).symm⟩

lemma execute_pending_inv {S : Settings} {st st' : BacktestState} {ts : Nat}
    {o : ℚ}
    (h1 : st.entry_price.isSome ↔ st.position.current_direction ≠ .FLAT)
    (h2 : st.entry_bar.isSome ↔ st.position.current_direction ≠ .FLAT)
    (h : execute_pending S st ts o = some st') :
    Inv st' ∧ st'.pending = none ∧
      st'.roll_freeze_remaining = st.roll_freeze_remaining := by
  obtain ⟨p, st1, st2, hp, hcl, hop, hst⟩ := execute_pending_spec h
  subst hst
  have hPend : ({ st2 with pending := none } : BacktestState).pending = none := rfl
  rcases close_leg_spec hcl with ⟨-, h1eq⟩ | ⟨cd, ep, eb, xp, -, -, -, h1eq⟩ <;>
    subst h1eq <;>
    rcases open_leg_spec hop with ⟨-, h2eq⟩ | ⟨od, pr, hod, h2eq⟩ <;>
    subst h2eq <;>
    refine ⟨⟨?_, ?_, by intro q hq; cases hq⟩, rfl, rfl⟩ <;>
    simp_all [PositionManager.on_close, PositionManager.on_open]

lemma execute_pending_trades {S : Settings} {st st' : BacktestState} {ts : Nat}
    {o : ℚ} (h : execute_pending S st ts o = some st') :
    ∀ t ∈ st'.ledger.trades,
      t ∈ st.ledger.trades ∨ (t.exit_bar = ts ∧ TradeOK S t) := by
  obtain ⟨p, st1, st2, hp, hcl, hop, hst⟩ := execute_pending_spec h
  subst hst
  have hled2 : st2.ledger = st1.ledger := by
    rcases open_leg_spec hop with ⟨-, h2eq⟩ | ⟨od, pr, hod, h2eq⟩ <;> subst h2eq <;> rfl
  intro t ht
  simp only [hled2] at ht
  rcases close_leg_spec hcl with ⟨-, h1eq⟩ | ⟨cd, ep, eb, xp, -, -, -, h1eq⟩
  · subst h1eq
    exact Or.inl ht
  · subst h1eq
    simp only [record_trades, List.mem_append, List.mem_singleton] at ht
    rcases ht with ht | ht
    · exact Or.inl ht
    · subst ht
      exact Or.inr ⟨rfl, build_trade_ok _ _ _ _ _ _ _⟩

/-- Abbreviation for the slippage amount chosen by
`compute_fill_price`: the roll-close tick count on a roll close, the
standard tick count otherwise, times the tick size. -/
def slip_amount (S : Settings) (roll : Bool) : ℚ :=
  ((if roll then S.ROLL_CLOSE_SLIPPAGE_TICKS else S.SLIPPAGE_TICKS : Int) : ℚ) * TICK_SIZE

lemma compute_fill_price_long (S : Settings) (o : ℚ) (r : Bool) :
    compute_fill_price S .LONG o r = some (o + slip_amount S r) := by
  rw [compute_fill_price_ne_flat S o r (by simp)]
  simp [slip_amount]

lemma compute_fill_price_short (S : Settings) (o : ℚ) (r : Bool) :
    compute_fill_price S .SHORT o r = some (o - slip_amount S r) := by
  rw [compute_fill_price_ne_flat S o r (by simp)]
  simp [slip_amount]

lemma close_leg_eq_long {S : Settings} {p : PendingOrder} {st : BacktestState}
    {ts : Nat} {o ep : ℚ} {eb : Nat}
    (hcd : p.close_direction = some .LONG)
    (hep : st.entry_price = some ep) (heb : st.entry_bar = some eb) :
    close_leg S p st ts o = some { st with
      ledger := (st.ledger.record S .LONG eb ts ep
        (round_to_tick (o - slip_amount S (p.exit_reason == "roll")))).1
      position := st.position.on_close
      entry_price := none
      entry_bar := none } := by
  unfold close_leg
  rw [hcd]
  simp only []
  rw [show Direction.ofValue (-(Direction.LONG.value)) = some Direction.SHORT from rfl]
  simp only []
  rw [compute_fill_price_short]
  simp only []
  rw [hep]
  simp only []
  rw [heb]

lemma close_leg_eq_short {S : Settings} {p : PendingOrder} {st : BacktestState}
    {ts : Nat} {o ep : ℚ} {eb : Nat}
    (hcd : p.close_direction = some .SHORT)
    (hep : st.entry_price = some ep) (heb : st.entry_bar = some eb) :
    close_leg S p st ts o = some { st with
      ledger := (st.ledger.record S .SHORT eb ts ep
        (round_to_tick (o + slip_amount S (p.exit_reason == "roll")))).1
      position := st.position.on_close
      entry_price := none
      entry_bar := none } := by
  unfold close_leg
  rw [hcd]
  simp only []
  rw [show Direction.ofValue (-(Direction.SHORT.value)) = some Direction.LONG from rfl]
  simp only []
  rw [compute_fill_price_long]
  simp only []
  rw [hep]
  simp only []
  rw [heb]

lemma close_leg_total {S : Settings} {p : PendingOrder} {st : BacktestState}
    (ts : Nat) (o : ℚ)
    (hpo : ∀ cd, p.close_direction = some cd →
        cd = st.position.current_direction ∧ cd ≠ .FLAT)
    (h1 : st.entry_price.isSome ↔ st.position.current_direction ≠ .FLAT)
    (h2 : st.entry_bar.isSome ↔ st.position.current_direction ≠ .FLAT) :
    ∃ st1, close_leg S p st ts o = some st1 := by
  cases hcd : p.close_direction with
  | none => exact ⟨st, by unfold close_leg; rw [hcd]⟩
  | some cd =>
    obtain ⟨hcdir, hcdF⟩ := hpo cd hcd
    have hdir : st.position.current_direction ≠ .FLAT := hcdir ▸ hcdF
    obtain ⟨ep, hep⟩ := Option.isSome_iff_exists.mp (h1.mpr hdir)
    obtain ⟨eb, heb⟩ := Option.isSome_iff_exists.mp (h2.mpr hdir)
    cases cd with
    | FLAT => exact absurd rfl hcdF
    | LONG => exact ⟨_, close_leg_eq_long hcd hep heb⟩
    | SHORT => exact ⟨_, close_leg_eq_short hcd hep heb⟩

lemma open_leg_total {S : Settings} {p : PendingOrder} {st : BacktestState}
    (ts : Nat) (o : ℚ)
    (hpo : ∀ od, p.open_direction = some od → od ≠ .FLAT) :
    ∃ st2, open_leg S p st ts o = some st2 := by
  cases hod : p.open_direction with
  | none => exact ⟨st, by unfold open_leg; rw [hod]⟩
  | some od =>
    rw [← Option.isSome_iff_exists]
    unfold open_leg
    rw [hod]
    simp only []
    rw [compute_fill_price_ne_flat S o false (hpo od hod)]
    rfl

lemma execute_pending_total {S : Settings} {st : BacktestState} {p : PendingOrder}
    (ts : Nat) (o : ℚ) (hI : Inv st) (hp : st.pending = some p) :
    ∃ st', execute_pending S st ts o = some st' := by
  obtain ⟨h1, h2, hpo⟩ := hI
  obtain ⟨hclose, hopen⟩ := hpo p hp
  obtain ⟨st1, hst1⟩ := close_leg_total (S := S) (p := p) ts o hclose h1 h2
  obtain ⟨st2, hst2⟩ := @open_leg_total S p st1 ts o hopen
  rw [← Option.isSome_iff_exists]
  unfold execute_pending
  rw [hp]
  simp only []
  rw [hst1]
  simp only []
  rw [hst2]
  rfl

lemma roll_phase_spec (S : Settings) (st : BacktestState) (ts : Nat) :
    (roll_phase S st ts).ledger = st.ledger ∧
    (roll_phase S st ts).position = st.position ∧
    (roll_phase S st ts).entry_price = st.entry_price ∧
    (roll_phase S st ts).entry_bar = st.entry_bar ∧
    (((roll_phase S st ts).pending = st.pending ∧
        st.position.current_direction = .FLAT) ∨
      (∃ ro, (roll_phase S st ts).pending = some ro ∧
        ro.close_direction = some st.position.current_direction ∧
        ro.open_direction = none ∧
        st.position.current_direction ≠ .FLAT)) := by
  unfold roll_phase
  by_cases h : st.position.is_flat = true
  · rw [if_pos h]
    exact ⟨rfl, rfl, rfl, rfl, Or.inl ⟨rfl, (is_flat_iff _).mp h⟩⟩
  · rw [if_neg h]
    exact ⟨rfl, rfl, rfl, rfl,
      Or.inr ⟨_, rfl, rfl, rfl, fun hF => h ((is_flat_iff _).mpr hF)⟩⟩

lemma roll_phase_inv {S : Settings} {st : BacktestState} {ts : Nat}
    (hI : Inv st) : Inv (roll_phase S st ts) := by
  obtain ⟨h1, h2, hpo⟩ := hI
  obtain ⟨hl, hpos, hep, heb, hpend⟩ := roll_phase_spec S st ts
  refine ⟨by rw [hep, hpos]; exact h1, by rw [heb, hpos]; exact h2, ?_⟩
  intro q hq
  rcases hpend with ⟨hpd, -⟩ | ⟨ro, hpd, hcd, hod, hne⟩
  · rw [hpd] at hq
    obtain ⟨hc, ho⟩ := hpo q hq
    exact ⟨fun cd hcd => by rw [hpos]; exact hc cd hcd, ho⟩
  · rw [hpd] at hq
    cases Option.some.inj hq
    constructor
    · intro cd hcd'
      rw [hcd] at hcd'
      cases Option.some.inj hcd'
      rw [hpos]
      exact ⟨rfl, hne⟩
    · intro od hod'
      rw [hod] at hod'
      cases hod'

lemma signal_phase_shape {st st' : BacktestState} {i ts : Nat} {sigs : List Int}
    (h : signal_phase st i ts sigs = some st') :
    ∃ po : Option PendingOrder, st' = { st with pending := po } ∧
      ∀ q, po = some q →
        (∀ cd, q.close_direction = some cd →
            cd = st.position.current_direction ∧ cd ≠ .FLAT) ∧
        (∀ od, q.open_direction = some od → od ≠ .FLAT) := by
  unfold signal_phase at h
  cases hs : sigs[i]? with
  | none => rw [hs] at h; cases h
  | some sv =>
    rw [hs] at h
    simp only [] at h
    cases ha : st.position.evaluate_signal sv i with
    | none => rw [ha] at h; cases h
    | some a =>
      rw [ha] at h
      simp only [] at h
      obtain ⟨hc, ho⟩ := evaluate_signal_spec ha
      by_cases hact : (a.close_existing || a.open_new) = true
      · rw [if_pos hact] at h
        cases Option.some.inj h
        refine ⟨_, rfl, ?_⟩
        intro q hq
        cases Option.some.inj hq
        constructor
        · intro cd hcd
          by_cases hce : a.close_existing = true
          · rw [if_pos hce] at hcd
            cases Option.some.inj hcd
            exact ⟨rfl, hc hce⟩
          · rw [if_neg hce] at hcd
            cases hcd
        · intro od hod
          by_cases hon : a.open_new = true
          · rw [if_pos hon] at hod
            cases Option.some.inj hod
            exact ho hon
          · rw [if_neg hon] at hod
            cases hod
      · rw [if_neg hact] at h
        cases Option.some.inj h
        exact ⟨none, rfl, fun q hq => by cases hq⟩

lemma signal_phase_inv {st st' : BacktestState} {i ts : Nat} {sigs : List Int}
    (h1 : st.entry_price.isSome ↔ st.position.current_direction ≠ .FLAT)
    (h2 : st.entry_bar.isSome ↔ st.position.current_direction ≠ .FLAT)
    (h : signal_phase st i ts sigs = some st') : Inv st' := by
  obtain ⟨po, hst, hq⟩ := signal_phase_shape h
  subst hst
  exact ⟨h1, h2, fun q hpq => hq q hpq⟩

lemma signal_phase_total (st : BacktestState) (i ts : Nat) (sigs : List Int)
    (hi : i < sigs.length) (hsv : ∀ s ∈ sigs, s = -1 ∨ s = 0 ∨ s = 1) :
    ∃ st', signal_phase st i ts sigs = some st' := by
  have hg : sigs[i]? = some sigs[i] := List.getElem?_eq_getElem hi
  obtain ⟨a, ha⟩ :=
    evaluate_signal_total st.position sigs[i] i (hsv _ (List.getElem_mem hi))
  rw [← Option.isSome_iff_exists]
  unfold signal_phase
  rw [hg]
  simp only []
  rw [ha]
  simp only []
  split_ifs <;> rfl

lemma step_tail_inv {S : Settings} {st1 st' : BacktestState} {i : Nat}
    {bar : Bar} {sigs : List Int} (hI : Inv st1)
    (h : step_tail S st1 i bar sigs = some st') : Inv st' := by
  unfold step_tail at h
  by_cases hr : bar.contains_roll = true
  · rw [if_pos hr] at h
    cases Option.some.inj h
    exact roll_phase_inv hI
  · rw [if_neg hr] at h
    by_cases hf : st1.roll_freeze_remaining > 0
    · rw [if_pos hf] at h
      cases Option.some.inj h
      exact ⟨hI.1, hI.2.1, fun q hq => hI.2.2 q hq⟩
    · rw [if_neg hf] at h
      exact signal_phase_inv hI.1 hI.2.1 h

lemma step_tail_total {S : Settings} (st1 : BacktestState) (i : Nat)
    (bar : Bar) (sigs : List Int) (hi : i < sigs.length)
    (hsv : ∀ s ∈ sigs, s = -1 ∨ s = 0 ∨ s = 1) :
    ∃ st', step_tail S st1 i bar sigs = some st' := by
  unfold step_tail
  split_ifs
  · exact ⟨_, rfl⟩
  · exact ⟨_, rfl⟩
  · exact signal_phase_total st1 i bar.ts sigs hi hsv

lemma step_tail_ledger {S : Settings} {st1 st' : BacktestState} {i : Nat}
    {bar : Bar} {sigs : List Int}
    (h : step_tail S st1 i bar sigs = some st') : st'.ledger = st1.ledger := by
  unfold step_tail at h
  split_ifs at h
  · cases Option.some.inj h
    exact (roll_phase_spec S st1 bar.ts).1
  · cases Option.some.inj h
    rfl
  · obtain ⟨po, hst, -⟩ := signal_phase_shape h
    rw [hst]

lemma step_inv {S : Settings} {st st' : BacktestState} {i : Nat} {bar : Bar}
    {sigs : List Int} (hI : Inv st) (h : step S st i bar sigs = some st') :
    Inv st' := by
  unfold step at h
  cases hp : st.pending with
  | none =>
    rw [hp] at h
    simp only [] at h
    exact step_tail_inv hI h
  | some p =>
    rw [hp] at h
    simp only [] at h
    cases hex : execute_pending S st bar.ts bar.open_price with
    | none => rw [hex] at h; cases h
    | some st1 =>
      rw [hex] at h
      simp only [] at h
      exact step_tail_inv (execute_pending_inv hI.1 hI.2.1 hex).1 h

lemma step_total {S : Settings} {st : BacktestState} {i : Nat} {bar : Bar}
    {sigs : List Int} (hI : Inv st) (hi : i < sigs.length)
    (hsv : ∀ s ∈ sigs, s = -1 ∨ s = 0 ∨ s = 1) :
    ∃ st', step S st i bar sigs = some st' := by
  unfold step
  cases hp : st.pending with
  | none =>
    simp only []
    exact step_tail_total st i bar sigs hi hsv
  | some p =>
    simp only []
    obtain ⟨st1, hst1⟩ := execute_pending_total bar.ts bar.open_price hI hp
    rw [hst1]
    simp only []
    exact step_tail_total st1 i bar sigs hi hsv

lemma step_trades {S : Settings} {st st' : BacktestState} {i : Nat} {bar : Bar}
    {sigs : List Int} (h : step S st i bar sigs = some st') :
    ∀ t ∈ st'.ledger.trades,
      t ∈ st.ledger.trades ∨ (t.exit_bar = bar.ts ∧ TradeOK S t) := by
  unfold step at h
  cases hp : st.pending with
  | none =>
    rw [hp] at h
    simp only [] at h
    rw [step_tail_ledger h]
    exact fun t ht => Or.inl ht
  | some p =>
    rw [hp] at h
    simp only [] at h
    cases hex : execute_pending S st bar.ts bar.open_price with
    | none => rw [hex] at h; cases h
    | some st1 =>
      rw [hex] at h
      simp only [] at h
      rw [step_tail_ledger h]
      exact execute_pending_trades hex

lemma run_loop_inv {S : Settings} {sigs : List Int} :
    ∀ (bars : List Bar) (i : Nat) (st st' : BacktestState),
      run_loop S st i bars sigs = some st' → Inv st → Inv st'
  | [], _, _, _, h, hI => by
    unfold run_loop at h
    cases Option.some.inj h
    exact hI
  | bar :: rest, i, st, st', h, hI => by
    unfold run_loop at h
    cases hs : step S st i bar sigs with
    | none => rw [hs] at h; cases h
    | some st1 =>
      rw [hs] at h
      simp only [] at h
      exact run_loop_inv rest (i + 1) st1 st' h (step_inv hI hs)

lemma run_loop_total {S : Settings} {sigs : List Int}
    (hsv : ∀ s ∈ sigs, s = -1 ∨ s = 0 ∨ s = 1) :
    ∀ (bars : List Bar) (i : Nat) (st : BacktestState), Inv st →
      i + bars.length ≤ sigs.length →
      ∃ st', run_loop S st i bars sigs = some st'
  | [], _, st, _, _ => ⟨st, rfl⟩
  | bar :: rest, i, st, hI, hlen => by
    have hi : i < sigs.length := by
      simp only [List.length_cons] at hlen
      omega
    obtain ⟨st1, hst1⟩ := step_total hI hi hsv
    have hlen' : (i + 1) + rest.length ≤ sigs.length := by
      simp only [List.length_cons] at hlen
      omega
    obtain ⟨st', hst'⟩ := run_loop_total hsv rest (i + 1) st1 (step_inv hI hst1) hlen'
    refine ⟨st', ?_⟩
    unfold run_loop
    rw [hst1]
    simp only []
    exact hst'

lemma run_loop_trades {S : Settings} {sigs : List Int} :
    ∀ (bars : List Bar) (i : Nat) (st st' : BacktestState),
      run_loop S st i bars sigs = some st' →
      ∀ t ∈ st'.ledger.trades,
        t ∈ st.ledger.trades ∨ ∃ b ∈ bars, t.exit_bar = b.ts ∧ TradeOK S t
  | [], _, _, _, h => by
    unfold run_loop at h
    cases Option.some.inj h
    exact fun t ht => Or.inl ht
  | bar :: rest, i, st, st', h => by
    unfold run_loop at h
    cases hs : step S st i bar sigs with
    | none => rw [hs] at h; cases h
    | some st1 =>
      rw [hs] at h
      simp only [] at h
      intro t ht
      rcases run_loop_trades rest (i + 1) st1 st' h t ht with ht1 | ⟨b, hb, hex, hok⟩
      · rcases step_trades hs t ht1 with ht0 | ⟨hex, hok⟩
        · exact Or.inl ht0
        · exact Or.inr ⟨bar, List.mem_cons_self bar rest, hex, hok⟩
      · exact Or.inr ⟨b, List.mem_cons_of_mem bar hb, hex, hok⟩

lemma getLast?_cc {α : Type} (a b : α) (l : List α) :
    (a :: b :: l).getLast? = (b :: l).getLast? := by
  simp [List.getLast?]

lemma exists_getLast? {α : Type} : ∀ (l : List α), l ≠ [] → ∃ a, l.getLast? = some a
  | [], h => absurd rfl h
  | [a], _ => ⟨a, rfl⟩
  | a :: b :: t, _ => by
    obtain ⟨x, hx⟩ := exists_getLast? (b :: t) (by simp)
    exact ⟨x, by rw [getLast?_cc]; exact hx⟩

lemma getLast?_mem {α : Type} : ∀ {l : List α} {a : α}, l.getLast? = some a → a ∈ l
  | [], _, h => by cases h
  | [x], _, h => by
    cases Option.some.inj h
    exact List.mem_singleton_self _
  | x :: y :: t, a, h => by
    rw [getLast?_cc] at h
    exact List.mem_cons_of_mem x (getLast?_mem h)

lemma ts_le_getLast :
    ∀ {l : List Bar} {lb b : Bar}, l.Pairwise (fun u v => u.ts ≤ v.ts) →
      l.getLast? = some lb → b ∈ l → b.ts ≤ lb.ts
  | [], _, _, _, hl, _ => by cases hl
  | [x], _, _, _, hl, hb => by
    cases Option.some.inj hl
    cases List.mem_singleton.mp hb
    exact le_refl _
  | x :: y :: t, lb, b, hp, hl, hb => by
    rw [getLast?_cc] at hl
    rcases List.mem_cons.mp hb with hbx | hb'
    · subst hbx
      exact (List.pairwise_cons.mp hp).1 lb (getLast?_mem hl)
    · exact ts_le_getLast (List.pairwise_cons.mp hp).2 hl hb'

lemma force_close_spec {S : Settings} {st st' : BacktestState} {bars : List Bar}
    (_hI : Inv st) (h : force_close_at_end S st bars = some st') :
    st'.position.current_direction = .FLAT ∧
    ∀ t ∈ st'.ledger.trades,
      t ∈ st.ledger.trades ∨
        ∃ lb, bars.getLast? = some lb ∧ t.exit_bar = lb.ts ∧ TradeOK S t := by
  unfold force_close_at_end at h
  by_cases hfl : st.position.is_flat = true
  · rw [if_pos hfl] at h
    cases Option.some.inj h
    have hdir := (is_flat_iff _).mp hfl
    exact ⟨hdir, fun t ht => Or.inl ht⟩
  · rw [if_neg hfl] at h
    cases hlast : bars.getLast? with
    | none => rw [hlast] at h; cases h
    | some lb =>
      rw [hlast] at h
      simp only [] at h
      cases hof : Direction.ofValue (-(st.position.current_direction.value)) with
      | none => rw [hof] at h; cases h
      | some cdir =>
        rw [hof] at h
        simp only [] at h
        cases hfp : compute_fill_price S cdir lb.open_price false with
        | none => rw [hfp] at h; cases h
        | some fp =>
          rw [hfp] at h
          simp only [] at h
          cases hepc : st.entry_price with
          | none => rw [hepc] at h; cases h
          | some ep =>
            rw [hepc] at h
            simp only [] at h
            cases hebc : st.entry_bar with
            | none => rw [hebc] at h; cases h
            | some eb =>
              rw [hebc] at h
              simp only [] at h
              cases Option.some.inj h
              refine ⟨rfl, ?_⟩
              intro t ht
              simp only [record_trades, List.mem_append, List.mem_singleton] at ht
              rcases ht with ht | ht
              · exact Or.inl ht
              · subst ht
                exact Or.inr ⟨lb, rfl, rfl, build_trade_ok _ _ _ _ _ _ _⟩

lemma force_close_total {S : Settings} {st : BacktestState} {bars : List Bar}
    (hI : Inv st) (hne : bars ≠ []) :
    ∃ st', force_close_at_end S st bars = some st' := by
  by_cases hfl : st.position.is_flat = true
  · exact ⟨st, by unfold force_close_at_end; rw [if_pos hfl]⟩
  · have hdir : st.position.current_direction ≠ .FLAT :=
      fun hF => hfl ((is_flat_iff _).mpr hF)
    obtain ⟨ep, hep⟩ := Option.isSome_iff_exists.mp (hI.1.mpr hdir)
    obtain ⟨eb, heb⟩ := Option.isSome_iff_exists.mp (hI.2.1.mpr hdir)
    obtain ⟨lb, hlb⟩ := exists_getLast? bars hne
    rw [← Option.isSome_iff_exists]
    unfold force_close_at_end
    rw [if_neg hfl, hlb]
    simp only []
    cases hd : st.position.current_direction with
    | FLAT => exact absurd hd hdir
    | LONG =>
      rw [show Direction.ofValue (-(Direction.LONG.value)) = some Direction.SHORT from rfl]
      simp only []
      rw [compute_fill_price_short]
      simp only []
      rw [hep]
      simp only []
      rw [heb]
      rfl
    | SHORT =>
      rw [show Direction.ofValue (-(Direction.SHORT.value)) = some Direction.LONG from rfl]
      simp only []
      rw [compute_fill_price_long]
      simp only []
      rw [hep]
      simp only []
      rw [heb]
      rfl

lemma run_backtest_spec {S : Settings} {bars : List Bar} {sigs : List Int}
    {st' : BacktestState} (h : run_backtest S bars sigs = some st') :
    ∃ stl, run_loop S {} 0 bars sigs = some stl ∧
      force_close_at_end S stl bars = some st' := by
  unfold run_backtest at h
  cases hl : run_loop S {} 0 bars sigs with
  | none => rw [hl] at h; cases h
  | some stl =>
    rw [hl] at h
    simp only [] at h
    exact ⟨stl, rfl, h⟩

lemma run_backtest_total {S : Settings} {bars : List Bar} {sigs : List Int}
    (hlen : bars.length ≤ sigs.length)
    (hsv : ∀ s ∈ sigs, s = -1 ∨ s = 0 ∨ s = 1) :
    ∃ st', run_backtest S bars sigs = some st' := by
  obtain ⟨stl, hstl⟩ := run_loop_total hsv bars 0 {} Inv_init (by omega)
  have hIl := run_loop_inv bars 0 {} stl hstl Inv_init
  by_cases hb : bars = []
  · subst hb
    exact ⟨{}, rfl⟩
  · obtain ⟨st', hst'⟩ := force_close_total hIl hb
    refine ⟨st', ?_⟩
    unfold run_backtest
    rw [hstl]
    simp only []
    exact hst'

/-- Agreement of two bars on exactly the fields the engine reads:
timestamp, open price and the roll flag.  The high, low and close
fields may differ arbitrarily. -/
def BarEq (b b' : Bar) : Prop :=
  b.ts = b'.ts ∧ b.open_price = b'.open_price ∧ b.contains_roll = b'.contains_roll

lemma step_congr {S : Settings} {st : BacktestState} {i : Nat} {sigs : List Int}
    {b b' : Bar} (h : BarEq b b') :
    step S st i b sigs = step S st i b' sigs := by
  obtain ⟨h1, h2, h3⟩ := h
  unfold step step_tail
  rw [h1, h2, h3]

lemma run_loop_congr {S : Settings} {sigs : List Int} :
    ∀ {bars bars' : List Bar}, List.Forall₂ BarEq bars bars' →
      ∀ (i : Nat) (st : BacktestState),
        run_loop S st i bars sigs = run_loop S st i bars' sigs := by
  intro bars bars' h
  induction h with
  | nil => intro i st; rfl
  | @cons b b' l l' hbe hrest ih =>
    intro i st
    unfold run_loop
    rw [step_congr hbe]
    cases hs : step S st i b' sigs with
    | none => rfl
    | some st1 =>
      simp only []
      exact ih (i + 1) st1

lemma getLast?_congr : ∀ (l l' : List Bar), List.Forall₂ BarEq l l' →
    (l.getLast? = none ∧ l'.getLast? = none) ∨
    (∃ a b, l.getLast? = some a ∧ l'.getLast? = some b ∧ BarEq a b)
  | [], [], _ => Or.inl ⟨rfl, rfl⟩
  | [], _ :: _, h => by cases h
  | _ :: _, [], h => by cases h
  | [a], [b], h => by
    obtain ⟨hab, -⟩ := List.forall₂_cons.mp h
    exact Or.inr ⟨a, b, rfl, rfl, hab⟩
  | [a], b :: c :: l', h => by
    obtain ⟨-, hll⟩ := List.forall₂_cons.mp h
    cases hll
  | a :: x :: l, [b], h => by
    obtain ⟨-, hll⟩ := List.forall₂_cons.mp h
    cases hll
  | a :: x :: l, b :: y :: l', h => by
    obtain ⟨-, hll⟩ := List.forall₂_cons.mp h
    rw [getLast?_cc, getLast?_cc]
    exact getLast?_congr _ _ hll

lemma force_close_congr {S : Settings} {st : BacktestState}
    {bars bars' : List Bar} (h : List.Forall₂ BarEq bars bars') :
    force_close_at_end S st bars = force_close_at_end S st bars' := by
  unfold force_close_at_end
  by_cases hfl : st.position.is_flat = true
  · rw [if_pos hfl, if_pos hfl]
  · rw [if_neg hfl, if_neg hfl]
    rcases getLast?_congr bars bars' h with ⟨h1, h2⟩ | ⟨a, b, ha, hb, e1, e2, e3⟩
    · rw [h1, h2]
    · rw [ha, hb]
      simp only []
      rw [e1, e2]

lemma run_backtest_congr {S : Settings} {sigs : List Int}
    {bars bars' : List Bar} (h : List.Forall₂ BarEq bars bars') :
    run_backtest S bars sigs = run_backtest S bars' sigs := by
  unfold run_backtest
  rw [run_loop_congr h 0 {}]
  cases hl : run_loop S {} 0 bars' sigs with
  | none => rfl
  | some stl =>
    simp only []
    exact force_close_congr h

/-- Comparison variant of `signal_phase` with the no-action clearing
(`state.pending = None` in the else branch of STEP 4) removed: the
stale pending order is kept instead of being cleared.  Used to show
that the clearing is observationally a no-op. -/
def signal_phase_keep (st : BacktestState) (i : Nat) (bar_ts : Nat)
    (signals : List Int) : Option BacktestState :=
  match signals[i]? with
  | none => none
  | some signal_value =>
    match st.position.evaluate_signal signal_value i with
    | none => none
    | some action =>
      let signal_order : PendingOrder :=
        { close_direction :=
            if action.close_existing then some st.position.current_direction else none
          open_direction :=
            if action.open_new then some action.new_direction else none
          signal_bar := some bar_ts
          exit_reason := "signal" }
      if action.close_existing || action.open_new then
        some { st with pending := some signal_order }
      else
        some st

/-- Comparison variant of `step_tail` built on `signal_phase_keep`. -/
def step_tail_keep (S : Settings) (st1 : BacktestState) (i : Nat) (bar : Bar)
    (signals : List Int) : Option BacktestState :=
  if bar.contains_roll then some (roll_phase S st1 bar.ts)
  else if st1.roll_freeze_remaining > 0 then
    some { st1 with roll_freeze_remaining := st1.roll_freeze_remaining - 1 }
  else
    signal_phase_keep st1 i bar.ts signals

/-- Comparison variant of `step` built on `step_tail_keep`. -/
def step_keep (S : Settings) (st : BacktestState) (i : Nat) (bar : Bar)
    (signals : List Int) : Option BacktestState :=
  match st.pending with
  | none => step_tail_keep S st i bar signals
  | some _ =>
    match execute_pending S st bar.ts bar.open_price with
    | none => none
    | some st1 => step_tail_keep S st1 i bar signals

/-- Comparison variant of `run_loop` built on `step_keep`. -/
def run_loop_keep (S : Settings) (st : BacktestState) (i : Nat) (bars : List Bar)
    (signals : List Int) : Option BacktestState :=
  match bars with
  | [] => some st
  | bar :: rest =>
    match step_keep S st i bar signals with
    | none => none
    | some st' => run_loop_keep S st' (i + 1) rest signals

/-- Comparison variant of `run_backtest` in which a no-action signal
bar keeps (rather than clears) the pending order. -/
def run_backtest_keep (S : Settings) (bars : List Bar) (signals : List Int) :
    Option BacktestState :=
  match run_loop_keep S {} 0 bars signals with
  | none => none
  | some st => force_close_at_end S st bars

lemma with_pending_none {st : BacktestState} (h : st.pending = none) :
    ({ st with pending := none } : BacktestState) = st := by
  cases st
  cases h
  rfl

lemma execute_pending_clears {S : Settings} {st st' : BacktestState}
    {ts : Nat} {o : ℚ} (h : execute_pending S st ts o = some st') :
    st'.pending = none := by
  obtain ⟨p, st1, st2, -, -, -, hst⟩ := execute_pending_spec h
  rw [hst]

lemma signal_phase_eq_keep {st : BacktestState} {i ts : Nat} {sigs : List Int}
    (h : st.pending = none) :
    signal_phase st i ts sigs = signal_phase_keep st i ts sigs := by
  unfold signal_phase signal_phase_keep
  cases hs : sigs[i]? with
  | none => rfl
  | some sv =>
    simp only []
    cases ha : st.position.evaluate_signal sv i with
    | none => rfl
    | some a =>
      simp only []
      split_ifs <;> first | rfl | rw [with_pending_none h]

lemma step_tail_eq_keep {S : Settings} {st1 : BacktestState} {i : Nat}
    {bar : Bar} {sigs : List Int} (h : st1.pending = none) :
    step_tail S st1 i bar sigs = step_tail_keep S st1 i bar sigs := by
  unfold step_tail step_tail_keep
  split_ifs
  · rfl
  · rfl
  · exact signal_phase_eq_keep h

lemma step_eq_keep {S : Settings} {st : BacktestState} {i : Nat}
    {bar : Bar} {sigs : List Int} :
    step S st i bar sigs = step_keep S st i bar sigs := by
  unfold step step_keep
  cases hp : st.pending with
  | none =>
    simp only []
    exact step_tail_eq_keep hp
  | some p =>
    simp only []
    cases hex : execute_pending S st bar.ts bar.open_price with
    | none => rfl
    | some st1 =>
      simp only []
      exact step_tail_eq_keep (execute_pending_clears hex)

lemma run_loop_eq_keep {S : Settings} {sigs : List Int} :
    ∀ (bars : List Bar) (i : Nat) (st : BacktestState),
      run_loop S st i bars sigs = run_loop_keep S st i bars sigs
  | [], _, _ => rfl
  | bar :: rest, i, st => by
    unfold run_loop run_loop_keep
    rw [← step_eq_keep]
    cases hs : step S st i bar sigs with
    | none => rfl
    | some st1 =>
      simp only []
      exact run_loop_eq_keep rest (i + 1) st1

lemma pyRound_intCast (n : ℤ) : pyRound (n : ℚ) = n := by
  unfold pyRound
  rw [Int.floor_intCast]
  have h : (n : ℚ) - (n : ℚ) < 1/2 := by norm_num
  rw [if_pos h]

lemma round_to_tick_eq (p : ℚ) :
    round_to_tick p = (pyRound (p / TICK_SIZE) : ℚ) * TICK_SIZE := by
  unfold round_to_tick
  rw [show (pyRound (p / TICK_SIZE) : ℚ) * TICK_SIZE * 10 ^ 10 =
      ((pyRound (p / TICK_SIZE) * 500000 : ℤ) : ℚ) by
    push_cast
    norm_num [TICK_SIZE]
    ring]
  rw [pyRound_intCast]
  push_cast
  norm_num [TICK_SIZE]
  ring

lemma pyRound_nearest (q : ℚ) (m : ℤ) :
    |q - (pyRound q : ℚ)| ≤ |q - (m : ℚ)| := by
  have hfl : ((⌊q⌋ : ℤ) : ℚ) ≤ q := Int.floor_le q
  have hfu : q < (⌊q⌋ : ℚ) + 1 := Int.lt_floor_add_one q
  have hm : (m : ℚ) ≤ (⌊q⌋ : ℚ) ∨ ((⌊q⌋ : ℚ) + 1 ≤ (m : ℚ)) := by
    rcases Int.le_or_lt m ⌊q⌋ with h | h
    · exact Or.inl (by exact_mod_cast h)
    · exact Or.inr (by exact_mod_cast h)
  unfold pyRound
  by_cases h1 : q - ⌊q⌋ < 1/2
  · rw [if_pos h1]
    rcases hm with h | h
    · rw [abs_of_nonneg (by linarith), abs_of_nonneg (by linarith)]
      linarith
    · rw [abs_of_nonneg (by linarith), abs_of_nonpos (by linarith)]
      linarith
  · rw [if_neg h1]
    by_cases h2 : 1/2 < q - ⌊q⌋
    · rw [if_pos h2]
      push_cast
      rcases hm with h | h
      · rw [abs_of_nonpos (by linarith), abs_of_nonneg (by linarith)]
        linarith
      · rw [abs_of_nonpos (by linarith), abs_of_nonpos (by linarith)]
        linarith
    · have heq : q - ⌊q⌋ = 1/2 := le_antisymm (not_lt.mp h2) (not_lt.mp h1)
      rw [if_neg h2]
      by_cases h3 : ⌊q⌋ % 2 = 0
      · rw [if_pos h3]
        rcases hm with h | h
        · rw [abs_of_nonneg (by linarith), abs_of_nonneg (by linarith)]
          linarith
        · rw [abs_of_nonneg (by linarith), abs_of_nonpos (by linarith)]
          linarith
      · rw [if_neg h3]
        push_cast
        rcases hm with h | h
        · rw [abs_of_nonpos (by linarith), abs_of_nonneg (by linarith)]
          linarith
        · rw [abs_of_nonpos (by linarith), abs_of_nonpos (by linarith)]
          linarith

lemma pyRound_tie_even {q : ℚ} (h : q - ⌊q⌋ = 1/2) : pyRound q % 2 = 0 := by
  unfold pyRound
  rw [if_neg (by rw [h]; norm_num), if_neg (by rw [h]; norm_num)]
  by_cases h3 : ⌊q⌋ % 2 = 0
  · rw [if_pos h3]
    exact h3
  · rw [if_neg h3]
    omega

lemma open_leg_none {S : Settings} {p : PendingOrder} {st : BacktestState}
    {ts : Nat} {o : ℚ} (hod : p.open_direction = none) :
    open_leg S p st ts o = some st := by
  unfold open_leg
  rw [hod]

/-- Concrete configuration used by the concrete runs below.  The roll
settings are arbitrary nonzero values (they are modelled configuration,
absent from `settings.py`). -/
def S0 : Settings :=
  { SLIPPAGE_TICKS := 1
    ROLL_CLOSE_SLIPPAGE_TICKS := 3
    COMMISSION_PER_SIDE := 5/2
    ROLL_FREEZE_BARS_POST := 12 }

/-- Helper building a concrete bar. -/
def mkBar (t : Nat) (o h l c : ℚ) (r : Bool) : Bar :=
  { ts := t, open_price := o, high := h, low := l, close := c, contains_roll := r }

/-- Two-bar fixture: an entry signal on bar 0, bar 1 ordinary. -/
def twoBars : List Bar := [mkBar 0 1 0 0 0 false, mkBar 1 1 0 0 0 false]

/-- Two-bar fixture: an entry signal on bar 0, bar 1 flagged as a roll
bar. -/
def rollBars : List Bar := [mkBar 0 1 0 0 0 false, mkBar 1 1 0 0 0 true]

/-- C1: the claim fails on the code.  With signal +1 on bar 0 (queuing a
pending open) and bar 1 flagged `contains_roll`, STEP 1 of the loop
executes the pending open at bar 1's open before the roll check, so the
recorded trade's `entry_bar` (timestamp 1) is the roll bar.  The code's
own comments say a position is never opened on a roll bar. -/
theorem C1_roll_bar_entry_failing_run :
    (run_backtest S0 rollBars [1, 0]).map
        (fun st => st.ledger.trades.map (fun t => t.entry_bar)) = some [1] ∧
    rollBars.map (fun b => (b.ts, b.contains_roll)) = [(0, false), (1, true)] := by
  constructor
  · decide
  · rfl

/-- Close-only pending order with exit reason "roll", as queued by the
roll handling in the engine loop. -/
def rollCloseOrder (cd : Direction) (sb : Option Nat) : PendingOrder :=
  { close_direction := some cd
    open_direction := none
    signal_bar := sb
    exit_reason := "roll" }

/-- C2: a pending close with exit reason "roll" is executed with the
configured roll-close slippage-tick count in place of the standard one:
the exit fill before tick rounding is `o - ROLL_CLOSE_SLIPPAGE_TICKS ×
TICK_SIZE` when closing a LONG and `o + ROLL_CLOSE_SLIPPAGE_TICKS ×
TICK_SIZE` when closing a SHORT, for every configuration. -/
theorem C2_roll_close_slippage (S : Settings) (st : BacktestState) (ts eb : Nat)
    (sb : Option Nat) (o ep : ℚ)
    (hep : st.entry_price = some ep) (heb : st.entry_bar = some eb) :
    (st.pending = some (rollCloseOrder .LONG sb) →
      ∃ st', execute_pending S st ts o = some st' ∧
        st'.ledger.trades = st.ledger.trades ++
          [build_trade S st.ledger.next_id .LONG eb ts ep
            (round_to_tick (o - (S.ROLL_CLOSE_SLIPPAGE_TICKS : ℚ) * TICK_SIZE))]) ∧
    (st.pending = some (rollCloseOrder .SHORT sb) →
      ∃ st', execute_pending S st ts o = some st' ∧
        st'.ledger.trades = st.ledger.trades ++
          [build_trade S st.ledger.next_id .SHORT eb ts ep
            (round_to_tick (o + (S.ROLL_CLOSE_SLIPPAGE_TICKS : ℚ) * TICK_SIZE))]) := by
  constructor
  · intro hp
    refine ⟨{ st with
        ledger := (st.ledger.record S .LONG eb ts ep
          (round_to_tick (o - (S.ROLL_CLOSE_SLIPPAGE_TICKS : ℚ) * TICK_SIZE))).1
        position := st.position.on_close
        entry_price := none
        entry_bar := none
        pending := none }, ?_, rfl⟩
    unfold execute_pending
    rw [hp]
    simp only []
    rw [close_leg_eq_long rfl hep heb]
    simp only []
    rw [open_leg_none rfl]
    rfl
  · intro hp
    refine ⟨{ st with
        ledger := (st.ledger.record S .SHORT eb ts ep
          (round_to_tick (o + (S.ROLL_CLOSE_SLIPPAGE_TICKS : ℚ) * TICK_SIZE))).1
        position := st.position.on_close
        entry_price := none
        entry_bar := none
        pending := none }, ?_, rfl⟩
    unfold execute_pending
    rw [hp]
    simp only []
    rw [close_leg_eq_short rfl hep heb]
    simp only []
    rw [open_leg_none rfl]
    rfl

/-- Concrete state with an open LONG position and a queued roll close,
used to witness C2. -/
def rollCloseState : BacktestState :=
  { position := { current_direction := .LONG, entry_bar_index := -1 }
    ledger := {}
    pending := some (rollCloseOrder .LONG (some 0))
    entry_price := some 1
    entry_bar := some 0
    roll_freeze_remaining := 0 }

theorem C2_roll_close_slippage_witness :
    ∃ st', execute_pending S0 rollCloseState 1 1 = some st' ∧
      st'.ledger.trades = rollCloseState.ledger.trades ++
        [build_trade S0 rollCloseState.ledger.next_id .LONG 0 1 1
          (round_to_tick (1 - (S0.ROLL_CLOSE_SLIPPAGE_TICKS : ℚ) * TICK_SIZE))] :=
  (C2_roll_close_slippage S0 rollCloseState 1 0 (some 0) 1 1 rfl rfl).1 rfl

/-- C3: every trade in the ledger produced by a run satisfies
`net_pnl = direction × (exit − entry) × (TICK_VALUE/TICK_SIZE) −
2 × COMMISSION_PER_SIDE` exactly (slippage is not subtracted again) and
`is_winner ↔ net_pnl > 0`. -/
theorem C3_net_pnl_formula (S : Settings) (bars : List Bar) (signals : List Int)
    (st : BacktestState) (h : run_backtest S bars signals = some st) :
    ∀ t ∈ st.ledger.trades,
      t.net_pnl = (t.direction.value : ℚ) * (t.exit_price - t.entry_price) *
          (TICK_VALUE / TICK_SIZE) - 2 * S.COMMISSION_PER_SIDE ∧
      (t.is_winner = true ↔ 0 < t.net_pnl) := by
  obtain ⟨stl, hl, hf⟩ := run_backtest_spec h
  have hIl := run_loop_inv bars 0 {} stl hl Inv_init
  intro t ht
  rcases (force_close_spec hIl hf).2 t ht with htl | ⟨lb, -, -, hok⟩
  · rcases run_loop_trades bars 0 {} stl hl t htl with h0 | ⟨b, -, -, hok⟩
    · cases h0
    · exact hok
  · exact hok

theorem C3_net_pnl_formula_witness :
    ∃ st t, run_backtest S0 twoBars [1, 0] = some st ∧ t ∈ st.ledger.trades ∧
      (t.net_pnl = (t.direction.value : ℚ) * (t.exit_price - t.entry_price) *
          (TICK_VALUE / TICK_SIZE) - 2 * S0.COMMISSION_PER_SIDE ∧
        (t.is_winner = true ↔ 0 < t.net_pnl)) := by
  have hrun : run_backtest S0 twoBars [1, 0] =
      some ((run_backtest S0 twoBars [1, 0]).get (by decide)) :=
    (Option.some_get _).symm
  have hne : ((run_backtest S0 twoBars [1, 0]).get (by decide)).ledger.trades ≠ [] := by
    decide
  exact ⟨_, _, hrun, List.head_mem hne,
    C3_net_pnl_formula S0 twoBars [1, 0] _ hrun _ (List.head_mem hne)⟩

/-- C4: no-lookahead.  Two bar streams that agree on every bar's
timestamp, open price and `contains_roll` flag (but may differ
arbitrarily in high, low, close) produce identical ledgers under the
same signal series. -/
theorem C4_no_lookahead (S : Settings) (bars bars' : List Bar)
    (signals : List Int) (h : List.Forall₂ BarEq bars bars') :
    (run_backtest S bars signals).map BacktestState.ledger =
      (run_backtest S bars' signals).map BacktestState.ledger := by
  rw [run_backtest_congr h]

theorem C4_no_lookahead_witness :
    (run_backtest S0 [mkBar 0 1 5 0 2 false, mkBar 1 1 7 1 3 false] [1, 0]).map
        BacktestState.ledger =
      (run_backtest S0 [mkBar 0 1 9 4 6 false, mkBar 1 1 8 2 5 false] [1, 0]).map
        BacktestState.ledger :=
  C4_no_lookahead S0 _ _ [1, 0]
    (List.Forall₂.cons ⟨rfl, rfl, rfl⟩
      (List.Forall₂.cons ⟨rfl, rfl, rfl⟩ List.Forall₂.nil))

/-- C5: termination.  For every non-empty bar stream (with aligned,
valid signals and monotone timestamps) the run completes, the final
position direction is FLAT (no dangling open position: every ledger
trade is a matched open/close pair by construction), and every trade's
exit bar — in particular the last one's — is at most the final input
bar's timestamp; the end-of-data close goes through the same
fill/slippage/ledger code path as a normal close. -/
theorem C5_termination (S : Settings) (bars : List Bar) (signals : List Int)
    (lb : Bar) (hlast : bars.getLast? = some lb)
    (hlen : bars.length ≤ signals.length)
    (hsv : ∀ s ∈ signals, s = -1 ∨ s = 0 ∨ s = 1)
    (hmono : bars.Pairwise (fun u v => u.ts ≤ v.ts)) :
    ∃ st, run_backtest S bars signals = some st ∧
      st.position.current_direction = .FLAT ∧
      ∀ t ∈ st.ledger.trades, t.exit_bar ≤ lb.ts := by
  obtain ⟨st, hrun⟩ := run_backtest_total hlen hsv
  obtain ⟨stl, hl, hf⟩ := run_backtest_spec hrun
  have hIl := run_loop_inv bars 0 {} stl hl Inv_init
  obtain ⟨hflat, htr⟩ := force_close_spec hIl hf
  refine ⟨st, hrun, hflat, ?_⟩
  intro t ht
  rcases htr t ht with htl | ⟨lb', hlb', hex, -⟩
  · rcases run_loop_trades bars 0 {} stl hl t htl with h0 | ⟨b, hb, hex, -⟩
    · cases h0
    · rw [hex]
      exact ts_le_getLast hmono hlast hb
  · have hlb : lb' = lb := Option.some.inj (hlb'.symm.trans hlast)
    rw [hex, hlb]

theorem C5_termination_witness :
    ∃ st, run_backtest S0 twoBars [1, 0] = some st ∧
      st.position.current_direction = .FLAT ∧
      ∀ t ∈ st.ledger.trades, t.exit_bar ≤ (mkBar 1 1 0 0 0 false).ts :=
  C5_termination S0 twoBars [1, 0] (mkBar 1 1 0 0 0 false) rfl (by decide)
    (by decide) (by decide)

/-- C6 as stated is false at the terminal point of a run:
`_force_close_at_end` calls `position.on_close()` but does not clear
`entry_price` / `entry_bar` (unlike `_execute_pending`), so after a
run ending in a force close the direction is FLAT while the entry
cache is still populated — the "present iff not FLAT" invariant fails
there. -/
theorem C6_entry_cache_stale_after_force_close :
    (run_backtest S0 twoBars [1, 0]).map
        (fun st =>
          (st.position.current_direction, st.entry_price.isSome, st.entry_bar.isSome)) =
      some (Direction.FLAT, true, true) := by
  decide

/-- C6 amended: after every prefix of the bar loop, the number of
unmatched opens minus closes in ledger-plus-current-state is 0 or 1 and
the entry cache (`entry_price`, `entry_bar`) is populated exactly when
the position direction is not FLAT; at the terminal state (after the
end-of-data force close, which does not clear the entry cache) the
unmatched-opens count is still 0 or 1. -/
theorem C6_single_position (S : Settings) (bars : List Bar) (signals : List Int) :
    (∀ (k : Nat) (st : BacktestState), run_first S bars signals k = some st →
      (opens_in st - closes_in st = 0 ∨ opens_in st - closes_in st = 1) ∧
      (st.entry_price.isSome ↔ st.position.current_direction ≠ .FLAT) ∧
      (st.entry_bar.isSome ↔ st.position.current_direction ≠ .FLAT)) ∧
    (∀ st : BacktestState, run_backtest S bars signals = some st →
      opens_in st - closes_in st = 0 ∨ opens_in st - closes_in st = 1) := by
  constructor
  · intro k st h
    have hI := run_loop_inv (bars.take k) 0 {} st h Inv_init
    refine ⟨?_, hI.1, hI.2.1⟩
    unfold opens_in closes_in
    by_cases hd : st.position.current_direction = .FLAT
    · rw [if_pos hd]
      left
      omega
    · rw [if_neg hd]
      right
      omega
  · intro st h
    obtain ⟨stl, hl, hf⟩ := run_backtest_spec h
    have hIl := run_loop_inv bars 0 {} stl hl Inv_init
    have hflat := (force_close_spec hIl hf).1
    unfold opens_in closes_in
    rw [if_pos hflat]
    left
    omega

theorem C6_single_position_witness :
    ∃ st, run_first S0 twoBars [1, 0] 2 = some st ∧
      ((opens_in st - closes_in st = 0 ∨ opens_in st - closes_in st = 1) ∧
        (st.entry_price.isSome ↔ st.position.current_direction ≠ .FLAT) ∧
        (st.entry_bar.isSome ↔ st.position.current_direction ≠ .FLAT)) := by
  have hrun : run_first S0 twoBars [1, 0] 2 =
      some ((run_first S0 twoBars [1, 0] 2).get (by decide)) :=
    (Option.some_get _).symm
  exact ⟨_, hrun, (C6_single_position S0 twoBars [1, 0]).1 2 _ hrun⟩

/-- C7 as stated is false: `p = 2.5 × TICK_SIZE` lies exactly halfway
between `2 × TICK_SIZE` and `3 × TICK_SIZE`; rounding ties away from
zero would give `3 × TICK_SIZE`, but `round_to_tick` returns
`2 × TICK_SIZE` (Python `round` resolves ties to the even multiple). -/
theorem C7_ties_away_counterexample :
    round_to_tick (1/8000) = 2 * TICK_SIZE ∧
    (1/8000 : ℚ) - 2 * TICK_SIZE = 3 * TICK_SIZE - 1/8000 ∧
    round_to_tick (1/8000) ≠ 3 * TICK_SIZE := by
  have h : round_to_tick (1/8000) = 2 * TICK_SIZE := by
    rw [round_to_tick_eq]
    rw [show ((1:ℚ)/8000) / TICK_SIZE = 5/2 by norm_num [TICK_SIZE]]
    rw [show pyRound (5/2) = 2 by unfold pyRound; norm_num]
    norm_num
  refine ⟨h, by norm_num [TICK_SIZE], ?_⟩
  rw [h]
  norm_num [TICK_SIZE]

/-- C7 amended: `round_to_tick p` is a multiple of TICK_SIZE nearest to
`p`; when `p` lies exactly halfway between two consecutive multiples the
result is the even multiple (banker's rounding), not the one farther
from zero. -/
theorem C7_round_to_tick_nearest_even (p : ℚ) :
    ∃ n : ℤ, round_to_tick p = (n : ℚ) * TICK_SIZE ∧
      (∀ m : ℤ, |p - (n : ℚ) * TICK_SIZE| ≤ |p - (m : ℚ) * TICK_SIZE|) ∧
      (∀ k : ℤ, p = (2 * k + 1) * (TICK_SIZE / 2) → n % 2 = 0) := by
  have hT : (0 : ℚ) < TICK_SIZE := by norm_num [TICK_SIZE]
  have hT0 : TICK_SIZE ≠ 0 := ne_of_gt hT
  refine ⟨pyRound (p / TICK_SIZE), round_to_tick_eq p, ?_, ?_⟩
  · intro m
    have key : ∀ j : ℤ, |p - (j : ℚ) * TICK_SIZE| =
        TICK_SIZE * |p / TICK_SIZE - (j : ℚ)| := by
      intro j
      have h1 : p - (j : ℚ) * TICK_SIZE = TICK_SIZE * (p / TICK_SIZE - (j : ℚ)) := by
        field_simp
        ring
      rw [h1, abs_mul, abs_of_pos hT]
    rw [key, key]
    exact mul_le_mul_of_nonneg_left (pyRound_nearest (p / TICK_SIZE) m) (le_of_lt hT)
  · intro k hk
    have hq : p / TICK_SIZE = (k : ℚ) + 1/2 := by
      rw [hk]
      field_simp
      ring
    apply pyRound_tie_even
    rw [hq]
    have hfk : ⌊(k : ℚ) + 1/2⌋ = k := by
      rw [add_comm, Int.floor_add_int]
      norm_num
    rw [hfk]
    ring

theorem C7_round_to_tick_nearest_even_witness :
    ∃ n : ℤ, round_to_tick (1/8000) = (n : ℚ) * TICK_SIZE ∧ n % 2 = 0 := by
  obtain ⟨n, hn, -, hk⟩ := C7_round_to_tick_nearest_even (1/8000)
  exact ⟨n, hn, hk 2 (by norm_num [TICK_SIZE])⟩

/-- C8 as stated is false: with signal +1 on bar 0 and signal 0 on bar
1, the pending entry queued at bar 0 is filled at bar 1's open (STEP 1
runs before signal evaluation), although bar 1 is a no-signal bar — the
recorded trade's entry_bar is bar 1's timestamp, so the order did
produce a fill. -/
theorem C8_pending_entry_fills_on_no_signal_bar :
    (run_backtest S0 twoBars [1, 0]).map
        (fun st => st.ledger.trades.map (fun t => t.entry_bar)) = some [1] ∧
    ([1, 0] : List Int)[1]? = some 0 := by
  constructor
  · decide
  · rfl

/-- C8 amended: the clearing of a stale pending order on a no-action
bar has no observable effect, because the pending order queued on the
previous bar has always already been executed at STEP 1 before signal
evaluation; a run with the clearing removed produces the identical
result for every input. -/
theorem C8_no_signal_clear_is_noop (S : Settings) (bars : List Bar)
    (signals : List Int) :
    run_backtest S bars signals = run_backtest_keep S bars signals := by
  unfold run_backtest run_backtest_keep
  rw [← run_loop_eq_keep]

/-- C9: the claim fails on the code.  After a LONG opens at bar index 1
(signal on bar 0, fill on bar 1), the position is open but
`entry_bar_index` is -1: the engine passes `bar_index=-1` to `on_open`,
contradicting the PositionManager's documented meaning ("bar index at
which the position was opened, -1 if flat"). -/
theorem C9_entry_bar_index_failing_run :
    (run_first S0 twoBars [1, 1] 2).map
        (fun st => (st.position.current_direction, st.position.entry_bar_index)) =
      some (Direction.LONG, -1) := by
  decide

/-- C10: FLAT is rejected by the fill computation (it returns an error,
never a price), and a full run under the caller contract (aligned
signal series with values in {-1,0,1}) never fails — in particular the
engine's own pending-order protocol never reaches the FLAT error
branch. -/
theorem C10_flat_rejected_and_unreachable (S : Settings) (bars : List Bar)
    (signals : List Int) (hlen : bars.length ≤ signals.length)
    (hsv : ∀ s ∈ signals, s = -1 ∨ s = 0 ∨ s = 1) :
    (∀ (o : ℚ) (r : Bool), compute_fill_price S .FLAT o r = none) ∧
    ∃ st, run_backtest S bars signals = some st :=
  ⟨fun o r => compute_fill_price_flat S o r, run_backtest_total hlen hsv⟩

theorem C10_flat_rejected_and_unreachable_witness :
    (∀ (o : ℚ) (r : Bool), compute_fill_price S0 .FLAT o r = none) ∧
    ∃ st, run_backtest S0 twoBars [1, 0] = some st :=
  C10_flat_rejected_and_unreachable S0 twoBars [1, 0] (by decide) (by decide)

end SSFM
